import Mathlib

/-!
# Verification of the IMAP ingestion backend

Shallow embedding of the account-worker subsystem of the backend
(`imapManager.ts`, `esClient.ts`, `crypto.ts`, `mailParser.ts`) together with
proofs of the specified properties: reconnect backoff, worker-registry
lifecycle, shutdown suppression of reconnects, message-identity resolution,
document-id construction, credential round-trip, backfill error isolation,
existence-check error handling, mailbox flattening, and listener accumulation.

Machine integers are modelled as `Nat`; JavaScript strings as `String` (byte
buffers as `List Nat` of byte values); fallible operations as `Except` or
`Option`; ambient time and randomness (`Date.now()`, `Math.random()`) as
explicit parameters.  Definitions come first, all proofs afterwards.
-/

namespace Imap

/-! ## Definitions: worker state and reconnect backoff (imapManager.ts)

A `Worker` record holds `client, account, connected, reconnectAttempts,
shuttingDown`.  The embedding keeps the fields the policy layer mutates. -/

structure WorkerState where
  connected : Bool
  reconnectAttempts : Nat
  shuttingDown : Bool
deriving DecidableEq, Repr

/-- Fresh worker as built by startWorkerForAccount:
connected false, zero reconnect attempts, not shutting down. -/
def initialWorker : WorkerState :=
  { connected := false, reconnectAttempts := 0, shuttingDown := false }

/-- Delay computed in retryConnect:
min(30000, 1000 * Math.pow(2, attempts)), in milliseconds. -/
def backoffDelay (attempts : Nat) : Nat :=
  min 30000 (1000 * 2 ^ attempts)

/-- retryConnect: if shutting down, return without scheduling; otherwise
increment reconnectAttempts and schedule a reconnect after `backoffDelay`
of the incremented counter.  The second component is the scheduled delay,
`none` when nothing was scheduled. -/
def retryConnect (w : WorkerState) : WorkerState × Option Nat :=
  if w.shuttingDown then (w, none)
  else
    let a := w.reconnectAttempts + 1
    ({ w with reconnectAttempts := a }, some (backoffDelay a))

/-- Effect of a successful connect inside connectAndListen:
connected := true and reconnectAttempts := 0. -/
def connectSuccess (w : WorkerState) : WorkerState :=
  { w with connected := true, reconnectAttempts := 0 }

/-- Effect of a failed connect attempt (the catch block of connectAndListen):
connected := false, then retryConnect. -/
def connectFailure (w : WorkerState) : WorkerState × Option Nat :=
  retryConnect { w with connected := false }

/-- N consecutive failed connect attempts starting from `w`; returns the final
worker state and the delay scheduled by the last attempt (`none` when N = 0 or
nothing was scheduled). -/
def consecutiveFailures : Nat → WorkerState → WorkerState × Option Nat
  | 0, w => (w, none)
  | 1, w => connectFailure w
  | n + 2, w => consecutiveFailures (n + 1) (connectFailure w).1

/-! ## Definitions: worker registry (imapManager.ts: workers map, start/stop)

The module-level `workers` map from account id to worker is embedded as a
function `Nat → Option WorkerState`; `none` means no worker is registered
for that id, so the registry structurally maps each id to at most one worker. -/

def Registry := Nat → Option WorkerState

/-- startWorkerForAccount: if a worker is already registered for the id, log
and return (the registry is unchanged); otherwise register a fresh worker
under the id (the subsequent fire-and-forget connectAndListen call does not
touch the registry). -/
def startWorkerForAccount (reg : Registry) (id : Nat) : Registry :=
  match reg id with
  | some _ => reg
  | none => fun i => if i = id then some initialWorker else reg i

/-- stopWorkerForAccount: look the id up; if absent, return (no-op).  If
present, set the shutting-down flag, attempt logout (a failure only produces a
warning log, modelled by the Bool result), and delete the id from the map.
The first component is the updated registry, the second whether a
logout-failure warning was logged. -/
def stopWorkerForAccount (reg : Registry) (id : Nat) (logoutFails : Bool) :
    Registry × Bool :=
  match reg id with
  | none => (reg, false)
  | some _ => (fun i => if i = id then none else reg i, logoutFails)

/-! ## Definitions: trace semantics of one worker's event handlers
(imapManager.ts: stopWorkerForAccount, retryConnect, connectAndListen,
close/end handlers)

Events model the handlers the code installs: a connect attempt resolving or
rejecting, the connection close/end events, a previously scheduled setTimeout
callback firing, and an explicit stop request.  Actions record what the
handlers externally do that the claims are about: scheduling a reconnect
timer, launching connectAndListen, logging a logout failure, removing the
worker from the registry. -/

inductive WorkerEvent where
  | connOk
  | connFail
  | connClosed
  | connEnded
  | timerFire
  | stopReq (logoutFails : Bool)
deriving DecidableEq, Repr

inductive WorkerAction where
  | scheduledReconnect (delayMs : Nat)
  | attemptedConnect
  | loggedLogoutFailure
  | removedFromRegistry
deriving DecidableEq, Repr

/-- Reconnect-related actions: scheduling a retry timer or entering a fresh
connectAndListen attempt. -/
def isReconnectAction : WorkerAction → Bool
  | .scheduledReconnect _ => true
  | .attemptedConnect => true
  | _ => false

/-- One worker together with whether it is (still) in the registry. -/
structure WorkerSys where
  w : WorkerState
  registered : Bool
deriving DecidableEq, Repr

/-- Handler semantics, one event at a time, mirroring the code:

* connOk — the awaited connect resolved: connected := true, attempts := 0.
* connFail — the catch block of connectAndListen: connected := false, then
  retryConnect, which checks shuttingDown before scheduling.
* connClosed / connEnded — the close/end handlers: connected := false and
  retryConnect guarded by the shuttingDown flag (retryConnect re-checks it,
  so the outcome equals connFail's).
* timerFire — the setTimeout callback: invokes connectAndListen only when the
  shuttingDown flag is still down (connectAndListen re-checks it too).
* stopReq — stopWorkerForAccount: no-op when not registered; otherwise set
  shuttingDown, best-effort logout (failure logged, never fatal), and remove
  from the registry. -/
def stepWorker (s : WorkerSys) : WorkerEvent → WorkerSys × List WorkerAction
  | .connOk => ({ s with w := connectSuccess s.w }, [])
  | .connFail =>
    ({ s with w := (connectFailure s.w).1 },
      match (connectFailure s.w).2 with
      | some ms => [.scheduledReconnect ms]
      | none => [])
  | .connClosed =>
    ({ s with w := (connectFailure s.w).1 },
      match (connectFailure s.w).2 with
      | some ms => [.scheduledReconnect ms]
      | none => [])
  | .connEnded =>
    ({ s with w := (connectFailure s.w).1 },
      match (connectFailure s.w).2 with
      | some ms => [.scheduledReconnect ms]
      | none => [])
  | .timerFire =>
    if s.w.shuttingDown then (s, []) else (s, [.attemptedConnect])
  | .stopReq lf =>
    if s.registered then
      ({ w := { s.w with shuttingDown := true }, registered := false },
        (if lf then [.loggedLogoutFailure] else []) ++ [.removedFromRegistry])
    else (s, [])

/-- Run a sequence of events, accumulating the emitted actions in order. -/
def runWorker (s : WorkerSys) : List WorkerEvent → WorkerSys × List WorkerAction
  | [] => (s, [])
  | e :: es =>
    ((runWorker (stepWorker s e).1 es).1,
      (stepWorker s e).2 ++ (runWorker (stepWorker s e).1 es).2)

/-- Reachable-state invariant: a worker absent from the registry has its
shutting-down flag set (it was removed by a stop). -/
def workerInv (s : WorkerSys) : Prop :=
  s.registered = false → s.w.shuttingDown = true

/-! ## Definitions: mailbox enumeration (imapManager.ts: connectAndListen)

The code flattens the result of listMailboxes with a local recursion:
push box.name when truthy, then recurse over box.children in listed order. -/

/-- Hierarchical mailbox listing as returned by listMailboxes.  A node may lack
a name (e.g. the root object) — and JS truthiness also drops an empty name. -/
inductive MailboxTree where
  | node (name : Option String) (children : List MailboxTree)

/-- Contribution of `if (box && box.name) mailboxNames.push(box.name)`:
the name is pushed only when present and non-empty (JS truthiness). -/
def pushedName : Option String → List String
  | some n => if n = "" then [] else [n]
  | none => []

mutual
/-- The local `recurse` function of connectAndListen: push this node's truthy
name, then recurse into the children in their listed order. -/
def flattenBoxes : MailboxTree → List String
  | .node name children => pushedName name ++ flattenBoxesList children

/-- box.children.forEach(c => recurse(c)) over a child list. -/
def flattenBoxesList : List MailboxTree → List String
  | [] => []
  | b :: bs => flattenBoxes b ++ flattenBoxesList bs
end

/-! ## Definitions: per-mailbox exists-listener registration
(imapManager.ts: connectAndListen subscription loop)

Each successful connect enumerates the mailboxes and, per mailbox, runs
client.on('exists', handler); nothing ever calls removeListener, and the
same client object is reused across reconnect cycles, so handler lists only
grow.  The listener state is the list of mailbox names whose handler is
registered, in registration order. -/

/-- One enumeration pass: register one handler per enumerated mailbox,
appended in order onto the already-registered handlers. -/
def subscribeMailboxes (s : List String) (names : List String) : List String :=
  s ++ names

/-- k successful connect cycles, each enumerating the same mailbox list and
registering its handlers (no handler is ever removed). -/
def connectCycles : Nat → List String → List String → List String
  | 0, _, s => s
  | k + 1, names, s => connectCycles k names (subscribeMailboxes s names)

/-- Body of one registered handler when an 'exists' event fires: re-open its
own mailbox m, read that mailbox's total message count, and when positive
process the message at that sequence position (the newest).  The result
records which mailbox was opened and which sequence number was processed. -/
def existsHandler (totals : String → Nat) (m : String) : Option (String × Nat) :=
  if totals m = 0 then none else some (m, totals m)

/-- A single 'exists' event on the shared connection invokes every registered
handler, in registration order. -/
def emitExists (s : List String) (totals : String → Nat) :
    List (Option (String × Nat)) :=
  s.map (existsHandler totals)

/-! ## Definitions: document identity (esClient.ts: encodedMessageId, docIdFor)

Buffer.from(messageId) produces the UTF-8 bytes of the string; base64url is
the URL-safe RFC 4648 alphabet without padding (Node 'base64url'). -/

/-- UTF-8 encoding of one code point (the bytes Buffer.from produces). -/
def utf8CharBytes (c : Char) : List Nat :=
  let n := c.toNat
  if n < 128 then [n]
  else if n < 2048 then [192 + n / 64, 128 + n % 64]
  else if n < 65536 then [224 + n / 4096, 128 + n / 64 % 64, 128 + n % 64]
  else [240 + n / 262144, 128 + n / 4096 % 64, 128 + n / 64 % 64, 128 + n % 64]

/-- UTF-8 bytes of a string. -/
def utf8Bytes (s : String) : List Nat :=
  (s.toList.map utf8CharBytes).flatten

/-- URL-safe base64 alphabet (RFC 4648 §5). -/
def base64UrlAlphabet : List Char :=
  "ABCDEFGHIJKLMNOPQRSTUVWXYZabcdefghijklmnopqrstuvwxyz0123456789-_".toList

/-- Character for one 6-bit group. -/
def base64UrlChar (n : Nat) : Char :=
  base64UrlAlphabet.getD n 'A'

/-- URL-safe base64 of a byte list, unpadded (Node Buffer.toString('base64url')). -/
def base64UrlEncode : List Nat → List Char
  | [] => []
  | [a] => [base64UrlChar (a / 4), base64UrlChar (a % 4 * 16)]
  | [a, b] => [base64UrlChar (a / 4), base64UrlChar (a % 4 * 16 + b / 16),
      base64UrlChar (b % 16 * 4)]
  | a :: b :: c :: rest =>
    base64UrlChar (a / 4) :: base64UrlChar (a % 4 * 16 + b / 16) ::
      base64UrlChar (b % 16 * 4 + c / 64) :: base64UrlChar (c % 64) ::
      base64UrlEncode rest

/-- encodedMessageId: base64url of the UTF-8 bytes of the message id. -/
def encodedMessageId (messageId : String) : String :=
  String.mk (base64UrlEncode (utf8Bytes messageId))

/-- The `${Date.now()}-${Math.random()}` placeholder substituted for an empty
messageId; randStr is the decimal rendering of Math.random(). -/
def emptyIdPlaceholder (nowMs : Nat) (randStr : String) : String :=
  toString nowMs ++ "-" ++ randStr

/-- docIdFor: accountId, underscore, base64url of the message id bytes; an
empty messageId (JS falsy) is replaced by the timestamp+random placeholder
before encoding. -/
def docIdFor (accountId messageId : String) (nowMs : Nat) (randStr : String) :
    String :=
  accountId ++ "_" ++
    encodedMessageId
      (if messageId.isEmpty then emptyIdPlaceholder nowMs randStr else messageId)

/-! ## Definitions: existence check (esClient.ts: docExists)

docExists computes the document id, queries the index, and returns the
index's boolean answer; any transport error is caught, logged, and turned
into `false` ("not seen").  The transport is a function from document id to
`Except Unit Bool` (`Except.error` = the request threw). -/

/-- docExists over an abstract transport. -/
def docExists (accountId messageId : String) (nowMs : Nat) (randStr : String)
    (transport : String → Except Unit Bool) : Bool :=
  match transport (docIdFor accountId messageId nowMs randStr) with
  | .error _ => false
  | .ok b => b

/-! ## Definitions: backfill error isolation (imapManager.ts:
fetchLast30DaysForMailbox and the mailbox loop of connectAndListen)

The abort-on-error control flow of await/throw is modelled in `Except`: an
uncaught error would be `Except.error` and stop the enclosing loop.  The
per-message try/catch around indexEmail and the per-mailbox try/catch are
modelled exactly where the code has them, so that "processing continues" is
a theorem, not a modelling artifact.  A message is abstracted to the facts
the control flow consults: its resolved id, what docExists answers for it,
and whether indexEmail resolves. -/

structure BackfillMsg where
  id : String
  alreadyIndexed : Bool
  upsertOk : Bool
deriving DecidableEq, Repr

inductive BackfillLog where
  | indexed (id : String)
  | indexErrorLogged (id : String)
  | mailboxErrorLogged (name : String)
deriving DecidableEq, Repr

/-- Body of the per-message loop: skip when the dedup check reports the id as
seen; otherwise try indexEmail, and catch an upsert failure by logging it.
The catch means this function never returns `Except.error`. -/
def processMessage (m : BackfillMsg) : Except Unit (List BackfillLog) :=
  if m.alreadyIndexed then Except.ok []
  else
    match (if m.upsertOk then (Except.ok () : Except Unit Unit)
        else Except.error ()) with
    | .ok _ => Except.ok [BackfillLog.indexed m.id]
    | .error _ => Except.ok [BackfillLog.indexErrorLogged m.id]

/-- The for-await loop over fetched messages: sequential, aborting if an
iteration raised (none does, by processMessage_never_raises below). -/
def processMsgs : List BackfillMsg → Except Unit (List BackfillLog)
  | [] => Except.ok []
  | m :: rest =>
    match processMessage m with
    | .error e => Except.error e
    | .ok l =>
      match processMsgs rest with
      | .error e => Except.error e
      | .ok ls => Except.ok (l ++ ls)

/-- A mailbox abstracted to its name, whether mailboxOpen/search succeed, and
its matching messages. -/
structure MailboxSpec where
  name : String
  openOk : Bool
  msgs : List BackfillMsg
deriving DecidableEq, Repr

/-- fetchLast30DaysForMailbox: open the mailbox and process its messages; the
surrounding try/catch logs any error for the mailbox and returns normally. -/
def fetchLast30DaysForMailbox (mb : MailboxSpec) : List BackfillLog :=
  match (match (if mb.openOk then (Except.ok () : Except Unit Unit)
      else Except.error ()) with
    | .error e => Except.error e
    | .ok _ => processMsgs mb.msgs) with
  | .error _ => [BackfillLog.mailboxErrorLogged mb.name]
  | .ok logs => logs

/-- The mailbox loop of connectAndListen: each iteration is wrapped in its own
try/catch, so enumeration always continues to the next mailbox. -/
def runMailboxes : List MailboxSpec → List BackfillLog
  | [] => []
  | mb :: rest => fetchLast30DaysForMailbox mb ++ runMailboxes rest

/-- Expected per-message logs, used to state that processing one message is
independent of the others. -/
def msgLogs (m : BackfillMsg) : List BackfillLog :=
  if m.alreadyIndexed then []
  else if m.upsertOk then [BackfillLog.indexed m.id]
  else [BackfillLog.indexErrorLogged m.id]

/-- Expected logs of a message list, message by message. -/
def okLogs (ms : List BackfillMsg) : List BackfillLog :=
  (ms.map msgLogs).flatten

/-! ## Definitions: message identity resolver (imapManager.ts: extractMessageId)

The resolver prefers parsed.messageId (JS truthiness: null/undefined/""), then
the first match of /^\s*Message-ID:\s*(.+)$/im on the raw text (the second
regex the code tries differs only in the case of the literal, so under the i
flag it matches exactly the same inputs), then a synthetic id.

The regex semantics are embedded faithfully for this pattern:
* the engine scans positions left to right; with the m flag, ^ succeeds only
  at the start of the string or right after a line terminator, so scanning is
  over line-start positions in order;
* at a position, the greedy leading \s* followed by the literal succeeds only
  when \s* consumes the entire whitespace run (any shorter run leaves a
  whitespace character where the literal expects M/m), so no backtracking is
  needed there;
* after the literal, the greedy \s* backtracks from the longest whitespace
  run down, and at each resulting start (.+)$ can only match the maximal run
  of non-line-terminator characters (with at least one), since $ only
  matches at the end of the string or before a line terminator.
\s is modelled by its ASCII members and line terminators by newline and
carriage return (the astral JS additions do not affect the claims). -/

/-- ASCII members of the JS \s class. -/
def jsWhitespace (c : Char) : Bool :=
  c = ' ' || c = '\t' || c = '\n' || c = '\r' || c = '\x0b' || c = '\x0c'

/-- JS line terminators relevant to the m-flag anchors and the dot. -/
def isLineTerm (c : Char) : Bool :=
  c = '\n' || c = '\r'

/-- Attempt of (.+)$ at the current position: the capture is the maximal
non-empty run of non-line-terminator characters. -/
def dotPlusDollar (u : List Char) : Option (List Char) :=
  let cap := u.takeWhile (fun c => !isLineTerm c)
  if cap.isEmpty then none else some cap

/-- Backtracking \s*(.+)$ after the literal: try consuming j whitespace
characters, longest first. -/
def wsThenDotPlus (t : List Char) : Nat → Option (List Char)
  | 0 => dotPlusDollar t
  | j + 1 =>
    match dotPlusDollar (t.drop (j + 1)) with
    | some cap => some cap
    | none => wsThenDotPlus t j

/-- Length of the leading whitespace run. -/
def wsLen (t : List Char) : Nat :=
  (t.takeWhile jsWhitespace).length

/-- Case-insensitive literal match (the i flag on an ASCII literal); the
literal is given lowercased. -/
def matchLiteral : List Char → List Char → Option (List Char)
  | [], t => some t
  | _ :: _, [] => none
  | l :: ls, c :: cs => if c.toLower = l then matchLiteral ls cs else none

/-- The header literal. -/
def messageIdLit : List Char := "message-id:".toList

/-- Full pattern attempt at one line-start position. -/
def matchAtPos (t : List Char) : Option (List Char) :=
  match matchLiteral messageIdLit (t.drop (wsLen t)) with
  | none => none
  | some rest => wsThenDotPlus rest (wsLen rest)

/-- Leftmost-match scan over the subject, attempting the pattern at every
line-start position in order. -/
def scanForMessageId : List Char → Bool → Option (List Char)
  | [], _ => none
  | c :: cs, atStart =>
    match (if atStart then matchAtPos (c :: cs) else none) with
    | some cap => some cap
    | none => scanForMessageId cs (isLineTerm c)

/-- First capture group of the first regex match over the raw text, if any. -/
def firstMessageIdCapture (rawText : String) : Option String :=
  (scanForMessageId rawText.toList true).map fun cap => String.mk cap

/-- JS String.prototype.trim over the modelled whitespace class. -/
def jsTrim (s : String) : String :=
  String.mk (((s.toList.dropWhile jsWhitespace).reverse.dropWhile
    jsWhitespace).reverse)

/-- The synthetic fallback id built from wall-clock millis and the rendering
of Math.random(). -/
def syntheticMessageId (nowMs : Nat) (randStr : String) : String :=
  "<generated-" ++ toString nowMs ++ "-" ++ randStr ++ ">"

/-- Raw-text path of extractMessageId: if the regex matched and the capture is
truthy (non-empty — it always is, by capture_ne_nil below), return it trimmed,
else fall through to the synthetic id. -/
def extractFromRaw (rawText : String) (nowMs : Nat) (randStr : String) : String :=
  match firstMessageIdCapture rawText with
  | some cap => if cap.isEmpty then syntheticMessageId nowMs randStr else jsTrim cap
  | none => syntheticMessageId nowMs randStr

/-- extractMessageId: parsed.messageId when truthy (present and non-empty),
else the raw-text scan, else the synthetic id. -/
def extractMessageId (parsedMessageId : Option String) (rawText : String)
    (nowMs : Nat) (randStr : String) : String :=
  match parsedMessageId with
  | some s => if s.isEmpty then extractFromRaw rawText nowMs randStr else s
  | none => extractFromRaw rawText nowMs randStr

/-! ## Definitions: credential codec (crypto.ts)

encryptString/decryptString drive Node's aes-256-gcm as a black box.  The
cipher is an abstract authenticated-encryption primitive bundled with the
properties GCM is used for: decryption inverts encryption under the same key,
16-byte tags, a genuine-token property (successful verification implies the
token is an encryption under that key), and rejection of another key's
tokens.  The composition performed by crypto.ts — key derivation by hashing
the master secret, token = base64(iv ‖ tag ‖ ciphertext), slicing on decrypt
— is embedded exactly.  Plaintexts, keys and buffers are byte lists. -/

structure AeadGcm where
  enc : List Nat → List Nat → List Nat → List Nat × List Nat
  dec : List Nat → List Nat → List Nat → List Nat → Option (List Nat)
  tag_len : ∀ k iv p, (enc k iv p).2.length = 16
  dec_enc : ∀ k iv p, dec k iv (enc k iv p).2 (enc k iv p).1 = some p
  auth : ∀ k iv tag c p, dec k iv tag c = some p → enc k iv p = (c, tag)
  distinct_key : ∀ k k' iv p, k ≠ k' →
    dec k' iv (enc k iv p).2 (enc k iv p).1 = none

/-- Standard base64 alphabet (RFC 4648 §4), used by Node 'base64'. -/
def base64StdAlphabet : List Char :=
  "ABCDEFGHIJKLMNOPQRSTUVWXYZabcdefghijklmnopqrstuvwxyz0123456789+/".toList

/-- Character for one 6-bit group. -/
def base64Char (n : Nat) : Char :=
  base64StdAlphabet.getD n 'A'

/-- Index of a base64 character in the alphabet. -/
def base64CharVal (c : Char) : Nat :=
  base64StdAlphabet.indexOf c

/-- Padded standard base64 of a byte list (Buffer.toString('base64')). -/
def base64Encode : List Nat → List Char
  | [] => []
  | [a] => [base64Char (a / 4), base64Char (a % 4 * 16), '=', '=']
  | [a, b] => [base64Char (a / 4), base64Char (a % 4 * 16 + b / 16),
      base64Char (b % 16 * 4), '=']
  | a :: b :: c :: rest =>
    base64Char (a / 4) :: base64Char (a % 4 * 16 + b / 16) ::
      base64Char (b % 16 * 4 + c / 64) :: base64Char (c % 64) ::
      base64Encode rest

/-- Base64 decoding of well-formed input (what Buffer.from(b64, 'base64')
computes on the tokens this codec produces). -/
def base64Decode : List Char → List Nat
  | c1 :: c2 :: c3 :: c4 :: rest =>
    if c3 = '=' then
      [base64CharVal c1 * 4 + base64CharVal c2 / 16]
    else if c4 = '=' then
      [base64CharVal c1 * 4 + base64CharVal c2 / 16,
        base64CharVal c2 % 16 * 16 + base64CharVal c3 / 4]
    else
      (base64CharVal c1 * 4 + base64CharVal c2 / 16) ::
        (base64CharVal c2 % 16 * 16 + base64CharVal c3 / 4) ::
        (base64CharVal c3 % 4 * 64 + base64CharVal c4) :: base64Decode rest
  | _ => []

/-- getKey: normalize the master secret to a 32-byte key by hashing (the
sha256 digest is already 32 bytes; slice(0, 32) keeps at most 32). -/
def getKey (sha256h : List Nat → List Nat) (masterKey : List Nat) : List Nat :=
  (sha256h masterKey).take 32

/-- encryptString: fresh 12-byte iv (passed in as a parameter), aes-256-gcm
under the derived key, and base64 of iv ‖ authTag ‖ ciphertext. -/
def encryptString (G : AeadGcm) (sha256h : List Nat → List Nat)
    (masterKey iv plain : List Nat) : String :=
  String.mk (base64Encode
    (iv ++ (G.enc (getKey sha256h masterKey) iv plain).2 ++
      (G.enc (getKey sha256h masterKey) iv plain).1))

/-- decryptString: base64-decode the token, slice bytes 0–12 as iv, 12–28 as
tag, 28– as ciphertext, verify and decrypt; `none` models the thrown
authentication error. -/
def decryptString (G : AeadGcm) (sha256h : List Nat → List Nat)
    (masterKey : List Nat) (token : String) : Option (List Nat) :=
  G.dec (getKey sha256h masterKey) ((base64Decode token.toList).take 12)
    (((base64Decode token.toList).drop 12).take 16)
    ((base64Decode token.toList).drop 28)

/-- Injective encoding of a key into one Nat; used only to build a concrete
witness instance of AeadGcm. -/
def encodeKeyNat : List Nat → Nat
  | [] => 0
  | a :: as => Nat.pair a (encodeKeyNat as) + 1

/-- Tag of the witness instance: the key's injective encoding padded to 16. -/
def toyTag (k : List Nat) : List Nat :=
  encodeKeyNat k :: List.replicate 15 0

/-- Encryption of the witness instance: ciphertext is the plaintext, the tag
identifies the key. -/
def toyEnc (k _iv p : List Nat) : List Nat × List Nat :=
  (p, toyTag k)

/-- Decryption of the witness instance: verify the tag carries this key. -/
def toyDec (k _iv tag c : List Nat) : Option (List Nat) :=
  if tag = toyTag k then some c else none

/-- A concrete mathematical AEAD satisfying the AeadGcm interface (not a real
cipher): it exists only so the abstract interface is demonstrably satisfiable. -/
def toyAead : AeadGcm where
  enc := toyEnc
  dec := toyDec
  tag_len := by
    intro k iv p
    simp [toyEnc, toyTag]
  dec_enc := by
    intro k iv p
    simp [toyEnc, toyDec]
  auth := by
    intro k iv tag c p h
    unfold toyDec at h
    by_cases ht : tag = toyTag k
    · rw [if_pos ht] at h
      rw [ht, ← Option.some.injEq p c |>.mp h.symm]
      rfl
    · rw [if_neg ht] at h
      exact absurd h (Option.noConfusion)
  distinct_key := by
    intro k k' iv p hkk
    have henc : ∀ x y : List Nat, encodeKeyNat x = encodeKeyNat y → x = y := by
      intro x
      induction x with
      | nil =>
        intro y hy
        cases y with
        | nil => rfl
        | cons b bs => exact absurd hy.symm (Nat.succ_ne_zero _)
      | cons a as ih =>
        intro y hy
        cases y with
        | nil => exact absurd hy (Nat.succ_ne_zero _)
        | cons b bs =>
          have hp : Nat.pair a (encodeKeyNat as) = Nat.pair b (encodeKeyNat bs) :=
            Nat.add_right_cancel hy
          obtain ⟨h1, h2⟩ := Nat.pair_eq_pair.mp hp
          rw [h1, ih bs h2]
    show toyDec k' iv (toyEnc k iv p).2 (toyEnc k iv p).1 = none
    unfold toyDec toyEnc
    rw [if_neg]
    intro hc
    have : encodeKeyNat k = encodeKeyNat k' := by
      have := List.cons_eq_cons.mp hc
      exact this.1
    exact hkk (henc k k' this)

/-! ## Proofs: reconnect backoff (C1) -/

lemma consecutiveFailures_one (w : WorkerState) :
    consecutiveFailures 1 w = connectFailure w := rfl

lemma consecutiveFailures_succ_succ (n : Nat) (w : WorkerState) :
    consecutiveFailures (n + 2) w = consecutiveFailures (n + 1) (connectFailure w).1 := rfl

lemma connectFailure_not_shutting (w : WorkerState) (h : w.shuttingDown = false) :
    connectFailure w =
      ({ w with connected := false, reconnectAttempts := w.reconnectAttempts + 1 },
        some (backoffDelay (w.reconnectAttempts + 1))) := by
  unfold connectFailure retryConnect
  split
  · next hsd =>
    have hb : w.shuttingDown = true := hsd
    rw [h] at hb
    exact absurd hb (by decide)
  · rfl

lemma consecutiveFailures_spec (n : Nat) (w : WorkerState)
    (h : w.shuttingDown = false) :
    (consecutiveFailures (n + 1) w).1.reconnectAttempts = w.reconnectAttempts + (n + 1) ∧
    (consecutiveFailures (n + 1) w).1.shuttingDown = false ∧
    (consecutiveFailures (n + 1) w).2 =
      some (backoffDelay (w.reconnectAttempts + (n + 1))) := by
  induction n generalizing w with
  | zero =>
    rw [consecutiveFailures_one, connectFailure_not_shutting w h]
    exact ⟨rfl, h, rfl⟩
  | succ m ih =>
    rw [consecutiveFailures_succ_succ]
    have hstep := connectFailure_not_shutting w h
    have h1 : (connectFailure w).1 =
        { w with connected := false, reconnectAttempts := w.reconnectAttempts + 1 } := by
      rw [hstep]
    rw [h1]
    have := ih { w with connected := false, reconnectAttempts := w.reconnectAttempts + 1 }
      (by simp [h])
    simpa [Nat.add_assoc, Nat.add_comm, Nat.add_left_comm] using this

/-- C1: for every worker not shutting down whose reconnect counter was reset to
zero by the last success, after N ≥ 1 consecutive failed connection attempts the
delay scheduled before the next reconnect equals min(30000, 1000·2^N)
milliseconds; moreover a successful connect resets the counter to zero, so the
first failure after a success schedules 1000·2^1 = 2000 ms. -/
theorem reconnect_backoff_formula (w : WorkerState) (n : Nat)
    (hsd : w.shuttingDown = false) (h0 : w.reconnectAttempts = 0) :
    (consecutiveFailures (n + 1) w).2 = some (min 30000 (1000 * 2 ^ (n + 1))) ∧
    (connectSuccess w).reconnectAttempts = 0 ∧
    (connectFailure (connectSuccess w)).2 = some 2000 := by
  refine ⟨?_, rfl, ?_⟩
  · have := (consecutiveFailures_spec n w hsd).2.2
    rw [this, h0]
    simp [backoffDelay]
  · have : (connectSuccess w).shuttingDown = false := by
      simp [connectSuccess, hsd]
    rw [connectFailure_not_shutting _ this]
    simp [connectSuccess, backoffDelay]

/-- Witness for reconnect_backoff_formula at the initial worker state and
N = 5 (where the 30 s cap takes effect: min 30000 32000 = 30000). -/
theorem reconnect_backoff_formula_witness :
    (consecutiveFailures 5 initialWorker).2 = some (min 30000 (1000 * 2 ^ 5)) ∧
    (connectSuccess initialWorker).reconnectAttempts = 0 ∧
    (connectFailure (connectSuccess initialWorker)).2 = some 2000 :=
  reconnect_backoff_formula initialWorker 4 (by decide) (by decide)

/-! ## Proofs: worker registry (C2) -/

lemma start_of_some (reg : Registry) (id : Nat) (w : WorkerState)
    (h : reg id = some w) : startWorkerForAccount reg id = reg := by
  unfold startWorkerForAccount
  rw [h]

lemma start_of_none (reg : Registry) (id : Nat) (h : reg id = none) :
    startWorkerForAccount reg id =
      fun i => if i = id then some initialWorker else reg i := by
  unfold startWorkerForAccount
  rw [h]

/-- C2: the registry maps each account id to at most one worker (it is a map
into `Option`); starting an account whose worker is already registered leaves
the registry unchanged; starting twice in succession equals starting once; and
stopping an unregistered account id leaves the registry unchanged (regardless
of whether the logout would have failed). -/
theorem registry_at_most_one_worker (reg : Registry) (id : Nat) :
    (∀ w, reg id = some w → startWorkerForAccount reg id = reg) ∧
    startWorkerForAccount (startWorkerForAccount reg id) id =
      startWorkerForAccount reg id ∧
    (reg id = none → ∀ lf, (stopWorkerForAccount reg id lf).1 = reg) := by
  refine ⟨fun w hw => start_of_some reg id w hw, ?_, fun hnone lf => ?_⟩
  · cases hreg : reg id with
    | some w =>
      rw [start_of_some reg id w hreg, start_of_some reg id w hreg]
    | none =>
      rw [start_of_none reg id hreg]
      exact start_of_some _ id initialWorker (by simp)
  · unfold stopWorkerForAccount
    rw [hnone]

/-- Witness for registry_at_most_one_worker: starting an account whose worker
is registered in a concrete one-entry registry is a no-op, starting twice on
the empty registry registers exactly once, and stopping an absent id on the
empty registry is a no-op. -/
theorem registry_at_most_one_worker_witness :
    startWorkerForAccount (fun i => if i = 1 then some initialWorker else none) 1 =
      (fun i => if i = 1 then some initialWorker else none) ∧
    startWorkerForAccount (startWorkerForAccount (fun _ => none) 2) 2 =
      startWorkerForAccount (fun _ => none) 2 ∧
    (stopWorkerForAccount (fun _ => none : Registry) 2 true).1 = (fun _ => none) :=
  ⟨(registry_at_most_one_worker (fun i => if i = 1 then some initialWorker else none) 1).1
      initialWorker rfl,
    (registry_at_most_one_worker (fun _ => none) 2).2.1,
    (registry_at_most_one_worker (fun _ => none) 2).2.2 rfl true⟩

/-! ## Proofs: shutdown suppresses reconnection (C3) -/

lemma connectFailure_fst_shuttingDown (w : WorkerState) :
    (connectFailure w).1.shuttingDown = w.shuttingDown := by
  unfold connectFailure retryConnect
  split <;> rfl

lemma connectFailure_snd_of_shutdown (w : WorkerState) (h : w.shuttingDown = true) :
    (connectFailure w).2 = none := by
  unfold connectFailure retryConnect
  split
  · rfl
  · next hns => exact absurd h (by simpa using hns)

lemma stepWorker_timerFire (s : WorkerSys) :
    stepWorker s .timerFire =
      (if s.w.shuttingDown then (s, []) else (s, [.attemptedConnect])) := rfl

lemma stepWorker_stopReq (s : WorkerSys) (lf : Bool) :
    stepWorker s (.stopReq lf) =
      (if s.registered then
        ({ w := { s.w with shuttingDown := true }, registered := false },
          (if lf then [.loggedLogoutFailure] else []) ++ [.removedFromRegistry])
      else (s, [])) := rfl

lemma step_preserves_shutdown (s : WorkerSys) (e : WorkerEvent)
    (h : s.w.shuttingDown = true) : (stepWorker s e).1.w.shuttingDown = true := by
  cases e with
  | connOk => exact h
  | connFail =>
    rw [show (stepWorker s .connFail).1.w = (connectFailure s.w).1 from rfl,
      connectFailure_fst_shuttingDown]
    exact h
  | connClosed =>
    rw [show (stepWorker s .connClosed).1.w = (connectFailure s.w).1 from rfl,
      connectFailure_fst_shuttingDown]
    exact h
  | connEnded =>
    rw [show (stepWorker s .connEnded).1.w = (connectFailure s.w).1 from rfl,
      connectFailure_fst_shuttingDown]
    exact h
  | timerFire =>
    rw [stepWorker_timerFire]
    split <;> exact h
  | stopReq lf =>
    rw [stepWorker_stopReq]
    split
    · rfl
    · exact h

lemma step_no_reconnect_of_shutdown (s : WorkerSys) (e : WorkerEvent)
    (h : s.w.shuttingDown = true) :
    ∀ a ∈ (stepWorker s e).2, isReconnectAction a = false := by
  cases e with
  | connOk => intro a ha; exact absurd ha (List.not_mem_nil a)
  | connFail =>
    intro a ha
    have h2 : (stepWorker s .connFail).2 = [] := by
      show (match (connectFailure s.w).2 with
        | some ms => [WorkerAction.scheduledReconnect ms] | none => []) = []
      rw [connectFailure_snd_of_shutdown s.w h]
    rw [h2] at ha
    exact absurd ha (List.not_mem_nil a)
  | connClosed =>
    intro a ha
    have h2 : (stepWorker s .connClosed).2 = [] := by
      show (match (connectFailure s.w).2 with
        | some ms => [WorkerAction.scheduledReconnect ms] | none => []) = []
      rw [connectFailure_snd_of_shutdown s.w h]
    rw [h2] at ha
    exact absurd ha (List.not_mem_nil a)
  | connEnded =>
    intro a ha
    have h2 : (stepWorker s .connEnded).2 = [] := by
      show (match (connectFailure s.w).2 with
        | some ms => [WorkerAction.scheduledReconnect ms] | none => []) = []
      rw [connectFailure_snd_of_shutdown s.w h]
    rw [h2] at ha
    exact absurd ha (List.not_mem_nil a)
  | timerFire =>
    intro a ha
    have h2 : (stepWorker s .timerFire).2 = [] := by
      rw [stepWorker_timerFire, if_pos h]
    rw [h2] at ha
    exact absurd ha (List.not_mem_nil a)
  | stopReq lf =>
    intro a ha
    rw [stepWorker_stopReq] at ha
    by_cases hr : s.registered = true
    · rw [if_pos hr] at ha
      have ha2 : a ∈ (if lf then [WorkerAction.loggedLogoutFailure] else []) ++
          [WorkerAction.removedFromRegistry] := ha
      rcases List.mem_append.mp ha2 with h1 | h1
      · cases lf
        · exact absurd h1 (List.not_mem_nil a)
        · have he : a = WorkerAction.loggedLogoutFailure := by simpa using h1
          rw [he]; rfl
      · have he : a = WorkerAction.removedFromRegistry := by simpa using h1
        rw [he]; rfl
    · rw [if_neg hr] at ha
      exact absurd ha (List.not_mem_nil a)

lemma run_no_reconnect_of_shutdown (es : List WorkerEvent) (s : WorkerSys)
    (h : s.w.shuttingDown = true) :
    ∀ a ∈ (runWorker s es).2, isReconnectAction a = false := by
  induction es generalizing s with
  | nil => intro a ha; exact absurd ha (List.not_mem_nil a)
  | cons e es ih =>
    intro a ha
    have hr : (runWorker s (e :: es)).2 =
        (stepWorker s e).2 ++ (runWorker (stepWorker s e).1 es).2 := rfl
    rw [hr] at ha
    rcases List.mem_append.mp ha with h1 | h1
    · exact step_no_reconnect_of_shutdown s e h a h1
    · exact ih (stepWorker s e).1 (step_preserves_shutdown s e h) a h1

lemma step_preserves_inv (s : WorkerSys) (e : WorkerEvent)
    (h : workerInv s) : workerInv (stepWorker s e).1 := by
  cases e with
  | connOk => exact h
  | connFail =>
    intro hreg
    rw [show (stepWorker s .connFail).1.w = (connectFailure s.w).1 from rfl,
      connectFailure_fst_shuttingDown]
    exact h hreg
  | connClosed =>
    intro hreg
    rw [show (stepWorker s .connClosed).1.w = (connectFailure s.w).1 from rfl,
      connectFailure_fst_shuttingDown]
    exact h hreg
  | connEnded =>
    intro hreg
    rw [show (stepWorker s .connEnded).1.w = (connectFailure s.w).1 from rfl,
      connectFailure_fst_shuttingDown]
    exact h hreg
  | timerFire =>
    have hst : (stepWorker s .timerFire).1 = s := by
      rw [stepWorker_timerFire]
      split <;> rfl
    rw [hst]
    exact h
  | stopReq lf =>
    intro _
    rw [stepWorker_stopReq]
    split
    · rfl
    · next hns => exact h (by simpa using hns)

lemma run_preserves_inv (es : List WorkerEvent) (s : WorkerSys)
    (h : workerInv s) : workerInv (runWorker s es).1 := by
  induction es generalizing s with
  | nil => exact h
  | cons e es ih => exact ih (stepWorker s e).1 (step_preserves_inv s e h)

lemma stop_unregisters (s : WorkerSys) (lf : Bool) :
    (stepWorker s (.stopReq lf)).1.registered = false := by
  rw [stepWorker_stopReq]
  by_cases hr : s.registered = true
  · rw [if_pos hr]
  · rw [if_neg hr]
    simpa using hr

lemma stop_sets_shutdown (s : WorkerSys) (lf : Bool) (h : workerInv s) :
    (stepWorker s (.stopReq lf)).1.w.shuttingDown = true := by
  rw [stepWorker_stopReq]
  by_cases hr : s.registered = true
  · rw [if_pos hr]
  · rw [if_neg hr]
    exact h (by simpa using hr)

lemma stop_state_ignores_logout (s : WorkerSys) (lf lf' : Bool) :
    (stepWorker s (.stopReq lf)).1 = (stepWorker s (.stopReq lf')).1 := by
  by_cases hr : s.registered = true
  · simp only [stepWorker_stopReq, if_pos hr]
  · simp only [stepWorker_stopReq, if_neg hr]

lemma run_state_append (s : WorkerSys) (es fs : List WorkerEvent) :
    (runWorker s (es ++ fs)).1 = (runWorker (runWorker s es).1 fs).1 := by
  induction es generalizing s with
  | nil => rfl
  | cons e es ih => exact ih (stepWorker s e).1

/-- C3: once stop runs for a worker of a reachable state (the registry
invariant holds), no reconnect is ever scheduled or attempted again — every
action emitted by any sequence of later events (timer callbacks scheduled
before the stop included) is a non-reconnect action; the worker is out of the
registry; and a failing logout leaves exactly the same state as a successful
one (it is logged, not fatal). -/
theorem stop_suppresses_reconnect (s0 : WorkerSys) (pre post : List WorkerEvent)
    (lf : Bool) (hinv : workerInv s0) :
    (∀ a ∈ (runWorker (runWorker s0 (pre ++ [WorkerEvent.stopReq lf])).1 post).2,
        isReconnectAction a = false) ∧
    (runWorker s0 (pre ++ [WorkerEvent.stopReq lf])).1.registered = false ∧
    (runWorker s0 (pre ++ [WorkerEvent.stopReq true])).1 =
      (runWorker s0 (pre ++ [WorkerEvent.stopReq false])).1 := by
  have hmid : ∀ b, (runWorker s0 (pre ++ [WorkerEvent.stopReq b])).1 =
      (stepWorker (runWorker s0 pre).1 (.stopReq b)).1 := by
    intro b
    rw [run_state_append]
    rfl
  have hinvPre : workerInv (runWorker s0 pre).1 := run_preserves_inv pre s0 hinv
  refine ⟨?_, ?_, ?_⟩
  · intro a ha
    refine run_no_reconnect_of_shutdown post _ ?_ a ha
    rw [hmid lf]
    exact stop_sets_shutdown _ lf hinvPre
  · rw [hmid lf]
    exact stop_unregisters _ lf
  · rw [hmid true, hmid false]
    exact stop_state_ignores_logout _ true false

/-- Witness for stop_suppresses_reconnect: a freshly started worker fails once,
is stopped with a failing logout, then a stale timer fires and the connection
closes; no reconnect action is emitted afterwards. -/
theorem stop_suppresses_reconnect_witness :
    (∀ a ∈ (runWorker (runWorker { w := initialWorker, registered := true }
        ([WorkerEvent.connFail] ++ [WorkerEvent.stopReq true])).1
        [WorkerEvent.timerFire, WorkerEvent.connClosed]).2,
      isReconnectAction a = false) ∧
    (runWorker { w := initialWorker, registered := true }
        ([WorkerEvent.connFail] ++ [WorkerEvent.stopReq true])).1.registered = false ∧
    (runWorker { w := initialWorker, registered := true }
        ([WorkerEvent.connFail] ++ [WorkerEvent.stopReq true])).1 =
      (runWorker { w := initialWorker, registered := true }
        ([WorkerEvent.connFail] ++ [WorkerEvent.stopReq false])).1 :=
  stop_suppresses_reconnect { w := initialWorker, registered := true }
    [WorkerEvent.connFail] [WorkerEvent.timerFire, WorkerEvent.connClosed] true
    (fun h => absurd h (by decide))

/-! ## Proofs: mailbox flattening is pre-order (C9) -/

lemma flattenBoxesList_append (l₁ l₂ : List MailboxTree) :
    flattenBoxesList (l₁ ++ l₂) = flattenBoxesList l₁ ++ flattenBoxesList l₂ := by
  induction l₁ with
  | nil => rfl
  | cons b bs ih =>
    show flattenBoxes b ++ flattenBoxesList (bs ++ l₂) = _
    rw [ih, ← List.append_assoc]
    rfl

lemma flattenBoxesList_eq_map (cs : List MailboxTree) :
    flattenBoxesList cs = (cs.map flattenBoxes).flatten := by
  induction cs with
  | nil => rfl
  | cons b bs ih =>
    show flattenBoxes b ++ flattenBoxesList bs = _
    rw [ih, List.map_cons, List.flatten_cons]

/-- C9: the enumeration flattens the hierarchical listing in pre-order — a
named node's flattening is its own name followed by the flattenings of its
children, the children contribute in their listed order (the list
homomorphism), and the child-list flattening is the in-order concatenation of
the children's flattenings; hence every parent name appears strictly before
every name contributed by its children. -/
theorem mailbox_flatten_preorder (n : String) (cs : List MailboxTree)
    (hn : n ≠ "") :
    flattenBoxes (.node (some n) cs) = n :: flattenBoxesList cs ∧
    (∀ l₁ l₂ : List MailboxTree,
      flattenBoxesList (l₁ ++ l₂) = flattenBoxesList l₁ ++ flattenBoxesList l₂) ∧
    flattenBoxesList cs = (cs.map flattenBoxes).flatten := by
  refine ⟨?_, flattenBoxesList_append, flattenBoxesList_eq_map cs⟩
  show (if n = "" then ([] : List String) else [n]) ++ flattenBoxesList cs =
    n :: flattenBoxesList cs
  rw [if_neg hn]
  rfl

/-- Witness for mailbox_flatten_preorder at a two-level concrete tree. -/
theorem mailbox_flatten_preorder_witness :
    flattenBoxes (.node (some "INBOX")
        [.node (some "Work") [], .node (some "Spam") []]) =
      "INBOX" :: flattenBoxesList [.node (some "Work") [], .node (some "Spam") []] ∧
    (∀ l₁ l₂ : List MailboxTree,
      flattenBoxesList (l₁ ++ l₂) = flattenBoxesList l₁ ++ flattenBoxesList l₂) ∧
    flattenBoxesList [.node (some "Work") [], .node (some "Spam") []] =
      ([(.node (some "Work") []), (.node (some "Spam") [])].map flattenBoxes).flatten :=
  mailbox_flatten_preorder "INBOX" [.node (some "Work") [], .node (some "Spam") []]
    (by decide)

/-! ## Proofs: exists-listener accumulation and fan-out (C10) -/

lemma connectCycles_acc (k : Nat) (names s : List String) :
    connectCycles k names s = s ++ connectCycles k names [] := by
  induction k generalizing s with
  | zero => simp [connectCycles]
  | succ j ih =>
    show connectCycles j names (subscribeMailboxes s names) =
      s ++ connectCycles j names (subscribeMailboxes [] names)
    unfold subscribeMailboxes
    rw [ih (s ++ names), ih ([] ++ names), List.nil_append, List.append_assoc]

lemma connectCycles_eq_replicate (k : Nat) (names : List String) :
    connectCycles k names [] = (List.replicate k names).flatten := by
  induction k with
  | zero => rfl
  | succ j ih =>
    show connectCycles j names (subscribeMailboxes [] names) = _
    unfold subscribeMailboxes
    rw [List.nil_append, connectCycles_acc j names names, ih,
      List.replicate_succ, List.flatten_cons]

lemma flatten_replicate_length (k : Nat) (names : List String) :
    ((List.replicate k names).flatten).length = k * names.length := by
  induction k with
  | zero => simp
  | succ j ih =>
    rw [List.replicate_succ, List.flatten_cons, List.length_append, ih,
      Nat.succ_mul]
    omega

/-- C10: after k ≥ 1 successful connects each enumerating `names`, the shared
client holds one persistent 'exists' listener per mailbox per cycle (k·|names|
in registration order, never removed — the registration list is exactly the k-
fold repetition of the enumeration), and a single 'exists' event runs the
handler of every registered mailbox — each handler re-opening its own mailbox
m and processing that mailbox's newest sequence number when its total is
positive — not only the handler of the mailbox the notification pertained to:
in particular every enumerated mailbox's handler result occurs in the
emission. -/
theorem exists_listeners_accumulate (k : Nat) (names : List String)
    (totals : String → Nat) (hk : 1 ≤ k) :
    connectCycles k names [] = (List.replicate k names).flatten ∧
    (connectCycles k names []).length = k * names.length ∧
    emitExists (connectCycles k names []) totals =
      ((List.replicate k names).flatten).map (existsHandler totals) ∧
    ∀ m ∈ names, existsHandler totals m ∈
      emitExists (connectCycles k names []) totals := by
  refine ⟨connectCycles_eq_replicate k names, ?_, ?_, ?_⟩
  · rw [connectCycles_eq_replicate]
    exact flatten_replicate_length k names
  · rw [connectCycles_eq_replicate]
    rfl
  · intro m hm
    rw [connectCycles_eq_replicate]
    unfold emitExists
    apply List.mem_map_of_mem
    obtain ⟨j, rfl⟩ : ∃ j, k = j + 1 := ⟨k - 1, by omega⟩
    rw [List.replicate_succ, List.flatten_cons]
    exact List.mem_append_left _ hm

/-- Witness for exists_listeners_accumulate: two reconnect cycles over two
mailboxes leave four listeners, and one event fires all of them. -/
theorem exists_listeners_accumulate_witness :
    connectCycles 2 ["INBOX", "Spam"] [] =
      (List.replicate 2 ["INBOX", "Spam"]).flatten ∧
    (connectCycles 2 ["INBOX", "Spam"] []).length = 2 * (["INBOX", "Spam"]).length ∧
    emitExists (connectCycles 2 ["INBOX", "Spam"] [])
        (fun m => if m = "INBOX" then 3 else 0) =
      ((List.replicate 2 ["INBOX", "Spam"]).flatten).map
        (existsHandler (fun m => if m = "INBOX" then 3 else 0)) ∧
    ∀ m ∈ ["INBOX", "Spam"],
      existsHandler (fun m => if m = "INBOX" then 3 else 0) m ∈
        emitExists (connectCycles 2 ["INBOX", "Spam"] [])
          (fun m => if m = "INBOX" then 3 else 0) :=
  exists_listeners_accumulate 2 ["INBOX", "Spam"]
    (fun m => if m = "INBOX" then 3 else 0) (by decide)

/-! ## Proofs: docExists error handling (C8) -/

/-- C8: docExists queries the index at the computed document id and never
raises — it is a total Bool-valued function that returns false when the
transport request fails (the failure is logged and treated as "not seen") and
returns the index's boolean answer otherwise. -/
theorem docExists_error_handling (a m : String) (n : Nat) (r : String)
    (t : String → Except Unit Bool) :
    (t (docIdFor a m n r) = Except.error () → docExists a m n r t = false) ∧
    (∀ b, t (docIdFor a m n r) = Except.ok b → docExists a m n r t = b) := by
  constructor
  · intro h
    unfold docExists
    rw [h]
  · intro b h
    unfold docExists
    rw [h]

/-- Witness for docExists_error_handling: a failing transport yields false, a
transport answering true yields true. -/
theorem docExists_error_handling_witness :
    docExists "1" "<m@x>" 0 "0.5" (fun _ => Except.error ()) = false ∧
    docExists "1" "<m@x>" 0 "0.5" (fun _ => Except.ok true) = true :=
  ⟨(docExists_error_handling "1" "<m@x>" 0 "0.5" (fun _ => Except.error ())).1 rfl,
    (docExists_error_handling "1" "<m@x>" 0 "0.5" (fun _ => Except.ok true)).2 true rfl⟩

/-! ## Proofs: backfill error isolation (C7) -/

/-- The per-message try/catch makes message processing total: it always
returns `Except.ok` with that message's logs. -/
lemma processMessage_never_raises (m : BackfillMsg) :
    processMessage m = Except.ok (msgLogs m) := by
  unfold processMessage msgLogs
  by_cases hx : m.alreadyIndexed = true
  · rw [if_pos hx, if_pos hx]
  · rw [if_neg hx, if_neg hx]
    by_cases hu : m.upsertOk = true
    · rw [if_pos hu, if_pos hu]
    · rw [if_neg hu, if_neg hu]

/-- Hence the sequential message loop never aborts: it yields the logs of
every message. -/
lemma processMsgs_ok (ms : List BackfillMsg) :
    processMsgs ms = Except.ok (okLogs ms) := by
  induction ms with
  | nil => rfl
  | cons m rest ih =>
    have h1 : processMsgs (m :: rest) =
        (match processMessage m with
        | .error e => Except.error e
        | .ok l =>
          match processMsgs rest with
          | .error e => Except.error e
          | .ok ls => Except.ok (l ++ ls)) := rfl
    rw [h1, processMessage_never_raises m, ih]
    rfl

lemma fetchMailbox_openOk (mb : MailboxSpec) (h : mb.openOk = true) :
    fetchLast30DaysForMailbox mb = okLogs mb.msgs := by
  unfold fetchLast30DaysForMailbox
  rw [if_pos h]
  rw [show (match (Except.ok () : Except Unit Unit) with
      | .error e => Except.error e
      | .ok _ => processMsgs mb.msgs) = processMsgs mb.msgs from rfl]
  rw [processMsgs_ok]

lemma fetchMailbox_openFail (mb : MailboxSpec) (h : mb.openOk = false) :
    fetchLast30DaysForMailbox mb = [BackfillLog.mailboxErrorLogged mb.name] := by
  unfold fetchLast30DaysForMailbox
  rw [if_neg (by rw [h]; exact Bool.false_ne_true)]

lemma runMailboxes_append (l1 l2 : List MailboxSpec) :
    runMailboxes (l1 ++ l2) = runMailboxes l1 ++ runMailboxes l2 := by
  induction l1 with
  | nil => rfl
  | cons mb rest ih =>
    show fetchLast30DaysForMailbox mb ++ runMailboxes (rest ++ l2) = _
    rw [ih, ← List.append_assoc]
    rfl

/-- C7: a message whose upsert fails is logged and the remaining messages of
the mailbox are processed exactly as they would be alone (the loop never
aborts); a mailbox that cannot be opened contributes only its logged error
while the mailboxes before and after it are processed unchanged. -/
theorem backfill_error_isolation
    (pre post : List BackfillMsg) (m : BackfillMsg)
    (mbs1 mbs2 : List MailboxSpec) (mb : MailboxSpec)
    (hex : m.alreadyIndexed = false) (hup : m.upsertOk = false)
    (hopen : mb.openOk = false) :
    processMsgs (pre ++ m :: post) =
      Except.ok (okLogs pre ++ [BackfillLog.indexErrorLogged m.id] ++ okLogs post) ∧
    runMailboxes (mbs1 ++ mb :: mbs2) =
      runMailboxes mbs1 ++ [BackfillLog.mailboxErrorLogged mb.name] ++
        runMailboxes mbs2 := by
  constructor
  · rw [processMsgs_ok]
    have hm : msgLogs m = [BackfillLog.indexErrorLogged m.id] := by
      unfold msgLogs
      rw [if_neg (by rw [hex]; exact Bool.false_ne_true),
        if_neg (by rw [hup]; exact Bool.false_ne_true)]
    have hsplit : okLogs (pre ++ m :: post) =
        okLogs pre ++ msgLogs m ++ okLogs post := by
      unfold okLogs
      rw [List.map_append, List.flatten_append, List.map_cons, List.flatten_cons,
        ← List.append_assoc]
    rw [hsplit, hm]
  · rw [runMailboxes_append,
      show runMailboxes (mb :: mbs2) =
        fetchLast30DaysForMailbox mb ++ runMailboxes mbs2 from rfl,
      fetchMailbox_openFail mb hopen, ← List.append_assoc]

/-- Witness for backfill_error_isolation: a failing upsert between two good
messages, and an unopenable mailbox between two good mailboxes. -/
theorem backfill_error_isolation_witness :
    processMsgs ([⟨"a", true, true⟩] ++ ⟨"b", false, false⟩ :: [⟨"c", false, true⟩]) =
      Except.ok (okLogs [⟨"a", true, true⟩] ++ [BackfillLog.indexErrorLogged "b"] ++
        okLogs [⟨"c", false, true⟩]) ∧
    runMailboxes ([⟨"INBOX", true, []⟩] ++ ⟨"Broken", false, []⟩ :: [⟨"Sent", true, []⟩]) =
      runMailboxes [⟨"INBOX", true, []⟩] ++ [BackfillLog.mailboxErrorLogged "Broken"] ++
        runMailboxes [⟨"Sent", true, []⟩] :=
  backfill_error_isolation [⟨"a", true, true⟩] [⟨"c", false, true⟩] ⟨"b", false, false⟩
    [⟨"INBOX", true, []⟩] [⟨"Sent", true, []⟩] ⟨"Broken", false, []⟩ rfl rfl rfl

/-! ## Proofs: document identity (C5) -/

lemma emptyIdPlaceholder_ne_empty (n : Nat) (r : String) :
    emptyIdPlaceholder n r ≠ "" := by
  unfold emptyIdPlaceholder
  intro h
  have hlen := congrArg String.length h
  rw [String.length_append, String.length_append] at hlen
  have h1 : ("-" : String).length = 1 := rfl
  have h2 : ("" : String).length = 0 := rfl
  rw [h1, h2] at hlen
  omega

lemma docIdFor_of_nonempty (a m : String) (n : Nat) (r : String)
    (hie : m.isEmpty = false) :
    docIdFor a m n r = a ++ "_" ++ encodedMessageId m := by
  unfold docIdFor
  rw [hie, if_neg Bool.false_ne_true]

/-- C5: for a non-empty messageId, docIdFor returns the account id, an
underscore, and the URL-safe base64 encoding of the messageId's UTF-8 bytes,
and it is deterministic — independent of the ambient time and randomness, two
calls with the same inputs agree; for an empty messageId, the
timestamp+random placeholder (itself never empty) is substituted before
encoding, so the identity is never derived from an empty string. -/
theorem docIdFor_deterministic (a m : String) (n1 n2 : Nat) (r1 r2 : String)
    (hm : m ≠ "") :
    docIdFor a m n1 r1 = a ++ "_" ++ String.mk (base64UrlEncode (utf8Bytes m)) ∧
    docIdFor a m n1 r1 = docIdFor a m n2 r2 ∧
    (∀ n r, docIdFor a "" n r =
        a ++ "_" ++
          String.mk (base64UrlEncode (utf8Bytes (emptyIdPlaceholder n r))) ∧
      emptyIdPlaceholder n r ≠ "") := by
  have hie : m.isEmpty = false := by
    cases he : m.isEmpty
    · rfl
    · exact absurd ((String.isEmpty_iff m).mp he) hm
  refine ⟨?_, ?_, fun n r => ⟨rfl, emptyIdPlaceholder_ne_empty n r⟩⟩
  · rw [docIdFor_of_nonempty a m n1 r1 hie]
    rfl
  · rw [docIdFor_of_nonempty a m n1 r1 hie, docIdFor_of_nonempty a m n2 r2 hie]

/-- Witness for docIdFor_deterministic at a concrete account and message id
(the encoding of "a" is "YQ"). -/
theorem docIdFor_deterministic_witness :
    (docIdFor "7" "a" 11 "0.1" =
        "7" ++ "_" ++ String.mk (base64UrlEncode (utf8Bytes "a")) ∧
      docIdFor "7" "a" 11 "0.1" = docIdFor "7" "a" 99 "0.2" ∧
      (∀ n r, docIdFor "7" "" n r =
          "7" ++ "_" ++
            String.mk (base64UrlEncode (utf8Bytes (emptyIdPlaceholder n r))) ∧
        emptyIdPlaceholder n r ≠ "")) ∧
    docIdFor "7" "a" 11 "0.1" = "7_YQ" :=
  ⟨docIdFor_deterministic "7" "a" 11 99 "0.1" "0.2" (by decide), by decide⟩

/-! ## Proofs: message identity resolver (C4) -/

lemma dotPlusDollar_ne_nil {u cap : List Char} (h : dotPlusDollar u = some cap) :
    cap ≠ [] := by
  unfold dotPlusDollar at h
  by_cases he : (u.takeWhile (fun c => !isLineTerm c)).isEmpty
  · rw [if_pos he] at h
    exact absurd h Option.noConfusion
  · rw [if_neg he] at h
    intro hc
    exact he (by rw [Option.some.inj h, hc]; rfl)

lemma wsThenDotPlus_ne_nil (t : List Char) :
    ∀ j cap, wsThenDotPlus t j = some cap → cap ≠ [] := by
  intro j
  induction j with
  | zero =>
    intro cap h
    exact dotPlusDollar_ne_nil h
  | succ j ih =>
    intro cap h
    unfold wsThenDotPlus at h
    cases hd : dotPlusDollar (t.drop (j + 1)) with
    | some c =>
      rw [hd] at h
      rw [← Option.some.inj h]
      exact dotPlusDollar_ne_nil hd
    | none =>
      rw [hd] at h
      exact ih cap h

lemma matchAtPos_ne_nil {t cap : List Char} (h : matchAtPos t = some cap) :
    cap ≠ [] := by
  unfold matchAtPos at h
  cases hm : matchLiteral messageIdLit (t.drop (wsLen t)) with
  | none =>
    rw [hm] at h
    exact absurd h Option.noConfusion
  | some rest =>
    rw [hm] at h
    exact wsThenDotPlus_ne_nil rest (wsLen rest) cap h

lemma scanForMessageId_ne_nil :
    ∀ (t : List Char) (b : Bool) (cap : List Char),
      scanForMessageId t b = some cap → cap ≠ [] := by
  intro t
  induction t with
  | nil =>
    intro b cap h
    exact absurd h Option.noConfusion
  | cons c cs ih =>
    intro b cap h
    unfold scanForMessageId at h
    cases hb : (if b then matchAtPos (c :: cs) else none) with
    | some cc =>
      rw [hb] at h
      rw [← Option.some.inj h]
      cases b with
      | false =>
        rw [if_neg Bool.false_ne_true] at hb
        exact absurd hb Option.noConfusion
      | true =>
        rw [if_pos rfl] at hb
        exact matchAtPos_ne_nil hb
    | none =>
      rw [hb] at h
      exact ih (isLineTerm c) cap h

/-- A capture returned by the regex is never the empty string — the (.+) group
consumes at least one character. -/
lemma firstCapture_ne_empty {raw cap : String}
    (h : firstMessageIdCapture raw = some cap) : cap ≠ "" := by
  unfold firstMessageIdCapture at h
  cases hs : scanForMessageId raw.toList true with
  | none =>
    rw [hs] at h
    exact absurd h Option.noConfusion
  | some l =>
    rw [hs] at h
    have h2 : some (String.mk l) = some cap := h
    have hmk : String.mk l = cap := Option.some.inj h2
    intro hc
    have hl : l ≠ [] := scanForMessageId_ne_nil raw.toList true l hs
    apply hl
    have hdata : l = cap.data := congrArg String.data hmk
    rw [hdata, hc]

lemma syntheticMessageId_ne_empty (n : Nat) (r : String) :
    syntheticMessageId n r ≠ "" := by
  unfold syntheticMessageId
  intro h
  have hlen := congrArg String.length h
  rw [String.length_append, String.length_append, String.length_append,
    String.length_append] at hlen
  have h1 : ("<generated-" : String).length = 11 := rfl
  have h2 : (">" : String).length = 1 := rfl
  have h3 : ("-" : String).length = 1 := rfl
  have h0 : ("" : String).length = 0 := rfl
  rw [h1, h2, h3, h0] at hlen
  omega

/-- Counterexample to C4 as stated: with no parser-provided id and raw text
"Message-ID: " (a single trailing blank after the colon), the regex matches
with capture " " — truthy before trimming — so the resolver returns the
trimmed capture, which is the empty string, not a non-empty identifier and
not the synthetic fallback. -/
theorem extractMessageId_nonempty_refuted :
    extractMessageId none "Message-ID: " 0 "0.5" = "" := by decide

/-- C4 (amended): the resolver returns the parser-provided id verbatim when it
is present and non-empty (JS truthiness); otherwise, when the first
case-insensitive Message-ID header match in the raw text exists, the captured
remainder trimmed — the capture itself is always non-empty, but its trim may
be empty when the capture is all whitespace, which is the only way the
resolver returns an empty string; otherwise the synthetic identifier
`<generated-{millis}-{random}>`, which matches `<generated-\d+-[\d.]+>`
whenever the rendered clock and random fraction consist of digits (resp.
digits and dots). -/
theorem extractMessageId_amended :
    (∀ (s raw : String) (n : Nat) (r : String), s ≠ "" →
      extractMessageId (some s) raw n r = s) ∧
    (∀ (raw : String) (n : Nat) (r cap : String),
      firstMessageIdCapture raw = some cap →
      extractMessageId none raw n r = jsTrim cap ∧ cap ≠ "") ∧
    (∀ (raw : String) (n : Nat) (r : String),
      firstMessageIdCapture raw = none →
      extractMessageId none raw n r = syntheticMessageId n r) ∧
    (∀ (n : Nat) (r : String),
      (toString n).toList.all Char.isDigit → toString n ≠ "" → r ≠ "" →
      r.toList.all (fun c => c.isDigit || c = '.') →
      ∃ d rr, syntheticMessageId n r = "<generated-" ++ d ++ "-" ++ rr ++ ">" ∧
        d ≠ "" ∧ d.toList.all Char.isDigit ∧ rr ≠ "" ∧
        rr.toList.all (fun c => c.isDigit || c = '.')) ∧
    (∀ (raw : String) (n : Nat) (r : String),
      extractMessageId none raw n r = "" →
      ∃ cap, firstMessageIdCapture raw = some cap ∧ jsTrim cap = "") := by
  refine ⟨?_, ?_, ?_, ?_, ?_⟩
  · intro s raw n r hs
    have hie : s.isEmpty = false := by
      cases he : s.isEmpty
      · rfl
      · exact absurd ((String.isEmpty_iff s).mp he) hs
    show (if s.isEmpty then extractFromRaw raw n r else s) = s
    rw [hie, if_neg Bool.false_ne_true]
  · intro raw n r cap hcap
    have hne : cap ≠ "" := firstCapture_ne_empty hcap
    have hie : cap.isEmpty = false := by
      cases he : cap.isEmpty
      · rfl
      · exact absurd ((String.isEmpty_iff cap).mp he) hne
    refine ⟨?_, hne⟩
    show extractFromRaw raw n r = jsTrim cap
    unfold extractFromRaw
    rw [hcap]
    show (if cap.isEmpty then syntheticMessageId n r else jsTrim cap) = jsTrim cap
    rw [hie, if_neg Bool.false_ne_true]
  · intro raw n r hnone
    show extractFromRaw raw n r = syntheticMessageId n r
    unfold extractFromRaw
    rw [hnone]
  · intro n r hd hdne hrne hr
    exact ⟨toString n, r, rfl, hdne, hd, hrne, hr⟩
  · intro raw n r h
    have h0 : extractFromRaw raw n r = "" := h
    unfold extractFromRaw at h0
    cases hcap : firstMessageIdCapture raw with
    | none =>
      rw [hcap] at h0
      exact absurd h0 (syntheticMessageId_ne_empty n r)
    | some cap =>
      rw [hcap] at h0
      have hne : cap ≠ "" := firstCapture_ne_empty hcap
      have hie : cap.isEmpty = false := by
        cases he : cap.isEmpty
        · rfl
        · exact absurd ((String.isEmpty_iff cap).mp he) hne
      have h1 : (if cap.isEmpty then syntheticMessageId n r else jsTrim cap) = "" := h0
      rw [hie, if_neg Bool.false_ne_true] at h1
      exact ⟨cap, rfl, h1⟩

/-- Witness for extractMessageId_amended on concrete inputs for each branch:
parser id wins, a headered raw text yields the trimmed capture, a headerless
raw text yields the synthetic id, and the synthetic id matches the generated
pattern. -/
theorem extractMessageId_amended_witness :
    extractMessageId (some "<id@x>") "junk" 0 "0.5" = "<id@x>" ∧
    (extractMessageId none "To: a\nMessage-ID: <m@y>" 0 "0.5" =
        jsTrim "<m@y>" ∧ ("<m@y>" : String) ≠ "") ∧
    extractMessageId none "no header here" 3 "0.25" = syntheticMessageId 3 "0.25" ∧
    (∃ d rr, syntheticMessageId 3 "0.25" =
        "<generated-" ++ d ++ "-" ++ rr ++ ">" ∧
      d ≠ "" ∧ d.toList.all Char.isDigit ∧ rr ≠ "" ∧
      rr.toList.all (fun c => c.isDigit || c = '.')) :=
  ⟨extractMessageId_amended.1 "<id@x>" "junk" 0 "0.5" (by decide),
    extractMessageId_amended.2.1 "To: a\nMessage-ID: <m@y>" 0 "0.5" "<m@y>"
      (by decide),
    extractMessageId_amended.2.2.1 "no header here" 3 "0.25" (by decide),
    extractMessageId_amended.2.2.2.1 3 "0.25" (by decide) (by decide) (by decide)
      (by decide)⟩

/-! ## Proofs: credential codec round-trip and authentication (C6) -/

lemma toList_mk (l : List Char) : (String.mk l).toList = l := rfl

lemma base64Char_ne_pad (n : Nat) : base64Char n ≠ '=' := by
  unfold base64Char
  by_cases h : n < base64StdAlphabet.length
  · rw [List.getD_eq_getElem base64StdAlphabet 'A' h]
    have hmem : base64StdAlphabet[n] ∈ base64StdAlphabet := List.getElem_mem h
    intro heq
    rw [heq] at hmem
    exact absurd hmem (by decide)
  · rw [List.getD_eq_default base64StdAlphabet 'A' (Nat.le_of_not_lt h)]
    decide

lemma base64CharVal_char (s : Nat) (h : s < 64) :
    base64CharVal (base64Char s) = s := by
  have hall : ∀ t : Fin 64, base64CharVal (base64Char t.val) = t.val := by decide
  exact hall ⟨s, h⟩

lemma base64Decode_cons (c1 c2 c3 c4 : Char) (rest : List Char) :
    base64Decode (c1 :: c2 :: c3 :: c4 :: rest) =
      (if c3 = '=' then
        [base64CharVal c1 * 4 + base64CharVal c2 / 16]
      else if c4 = '=' then
        [base64CharVal c1 * 4 + base64CharVal c2 / 16,
          base64CharVal c2 % 16 * 16 + base64CharVal c3 / 4]
      else
        (base64CharVal c1 * 4 + base64CharVal c2 / 16) ::
          (base64CharVal c2 % 16 * 16 + base64CharVal c3 / 4) ::
          (base64CharVal c3 % 4 * 64 + base64CharVal c4) ::
          base64Decode rest) := rfl

lemma base64_roundtrip : ∀ l : List Nat, (∀ b ∈ l, b < 256) →
    base64Decode (base64Encode l) = l
  | [], _ => rfl
  | [a], hb => by
    have ha : a < 256 := hb a (List.mem_singleton.mpr rfl)
    have h1 : base64CharVal (base64Char (a / 4)) = a / 4 :=
      base64CharVal_char _ (by omega)
    have h2 : base64CharVal (base64Char (a % 4 * 16)) = a % 4 * 16 :=
      base64CharVal_char _ (by omega)
    show base64Decode [base64Char (a / 4), base64Char (a % 4 * 16), '=', '='] = [a]
    rw [show ([base64Char (a / 4), base64Char (a % 4 * 16), '=', '='] : List Char) =
      base64Char (a / 4) :: base64Char (a % 4 * 16) :: '=' :: '=' :: [] from rfl,
      base64Decode_cons, if_pos rfl, h1, h2]
    have : a / 4 * 4 + a % 4 * 16 / 16 = a := by omega
    rw [this]
  | [a, b], hb => by
    have ha : a < 256 := hb a (by simp)
    have hb2 : b < 256 := hb b (by simp)
    have h1 : base64CharVal (base64Char (a / 4)) = a / 4 :=
      base64CharVal_char _ (by omega)
    have h2 : base64CharVal (base64Char (a % 4 * 16 + b / 16)) =
        a % 4 * 16 + b / 16 := base64CharVal_char _ (by omega)
    have h3 : base64CharVal (base64Char (b % 16 * 4)) = b % 16 * 4 :=
      base64CharVal_char _ (by omega)
    show base64Decode [base64Char (a / 4), base64Char (a % 4 * 16 + b / 16),
      base64Char (b % 16 * 4), '='] = [a, b]
    rw [show ([base64Char (a / 4), base64Char (a % 4 * 16 + b / 16),
        base64Char (b % 16 * 4), '='] : List Char) =
      base64Char (a / 4) :: base64Char (a % 4 * 16 + b / 16) ::
        base64Char (b % 16 * 4) :: '=' :: [] from rfl,
      base64Decode_cons, if_neg (base64Char_ne_pad _), if_pos rfl, h1, h2, h3]
    have e1 : a / 4 * 4 + (a % 4 * 16 + b / 16) / 16 = a := by omega
    have e2 : (a % 4 * 16 + b / 16) % 16 * 16 + b % 16 * 4 / 4 = b := by omega
    rw [e1, e2]
  | a :: b :: c :: rest, hb => by
    have ha : a < 256 := hb a (by simp)
    have hb2 : b < 256 := hb b (by simp)
    have hc : c < 256 := hb c (by simp)
    have hrest : ∀ x ∈ rest, x < 256 := fun x hx => hb x (by simp [hx])
    have h1 : base64CharVal (base64Char (a / 4)) = a / 4 :=
      base64CharVal_char _ (by omega)
    have h2 : base64CharVal (base64Char (a % 4 * 16 + b / 16)) =
        a % 4 * 16 + b / 16 := base64CharVal_char _ (by omega)
    have h3 : base64CharVal (base64Char (b % 16 * 4 + c / 64)) =
        b % 16 * 4 + c / 64 := base64CharVal_char _ (by omega)
    have h4 : base64CharVal (base64Char (c % 64)) = c % 64 :=
      base64CharVal_char _ (by omega)
    show base64Decode (base64Char (a / 4) :: base64Char (a % 4 * 16 + b / 16) ::
      base64Char (b % 16 * 4 + c / 64) :: base64Char (c % 64) ::
      base64Encode rest) = a :: b :: c :: rest
    rw [base64Decode_cons, if_neg (base64Char_ne_pad _),
      if_neg (base64Char_ne_pad _), h1, h2, h3, h4,
      base64_roundtrip rest hrest]
    have e1 : a / 4 * 4 + (a % 4 * 16 + b / 16) / 16 = a := by omega
    have e2 : (a % 4 * 16 + b / 16) % 16 * 16 + (b % 16 * 4 + c / 64) / 4 = b := by
      omega
    have e3 : (b % 16 * 4 + c / 64) % 4 * 64 + c % 64 = c := by omega
    rw [e1, e2, e3]

lemma token_slices (iv tag c : List Nat) (hiv : iv.length = 12)
    (htag : tag.length = 16) :
    (iv ++ tag ++ c).take 12 = iv ∧
    ((iv ++ tag ++ c).drop 12).take 16 = tag ∧
    (iv ++ tag ++ c).drop 28 = c := by
  have hassoc : iv ++ tag ++ c = iv ++ (tag ++ c) := List.append_assoc iv tag c
  refine ⟨?_, ?_, ?_⟩
  · rw [hassoc]
    exact List.take_left' hiv
  · rw [hassoc, List.drop_left' hiv]
    exact List.take_left' htag
  · have hlen : (iv ++ tag).length = 28 := by
      rw [List.length_append, hiv, htag]
    exact List.drop_left' hlen

/-- C6: for every plaintext (byte string) p under a fixed master secret,
decryptString inverts encryptString; a token produced under a different master
secret (one whose derived key differs) fails verification with `none` (the
thrown authentication error); and any assembled token whose
iv ‖ tag ‖ ciphertext content is not a genuine encryption under the key also
fails — no plaintext is ever returned for it. -/
theorem encrypt_decrypt_roundtrip (G : AeadGcm) (sha256h : List Nat → List Nat)
    (m1 m2 iv p : List Nat) (hiv : iv.length = 12)
    (hbytes : ∀ b ∈ iv ++ (G.enc (getKey sha256h m1) iv p).2 ++
        (G.enc (getKey sha256h m1) iv p).1, b < 256)
    (hk : getKey sha256h m1 ≠ getKey sha256h m2) :
    decryptString G sha256h m1 (encryptString G sha256h m1 iv p) = some p ∧
    decryptString G sha256h m2 (encryptString G sha256h m1 iv p) = none ∧
    (∀ iv2 tag c, iv2.length = 12 → tag.length = 16 →
      (∀ b ∈ iv2 ++ tag ++ c, b < 256) →
      (∀ q, G.enc (getKey sha256h m1) iv2 q ≠ (c, tag)) →
      decryptString G sha256h m1 (String.mk (base64Encode (iv2 ++ tag ++ c))) =
        none) := by
  have hslices := token_slices iv (G.enc (getKey sha256h m1) iv p).2
    (G.enc (getKey sha256h m1) iv p).1 hiv (G.tag_len _ _ _)
  refine ⟨?_, ?_, ?_⟩
  · unfold decryptString encryptString
    rw [toList_mk, base64_roundtrip _ hbytes, hslices.1, hslices.2.1, hslices.2.2]
    exact G.dec_enc _ _ _
  · unfold decryptString encryptString
    rw [toList_mk, base64_roundtrip _ hbytes, hslices.1, hslices.2.1, hslices.2.2]
    exact G.distinct_key _ _ _ _ hk
  · intro iv2 tag c hiv2 htag hb2 hgen
    have hs := token_slices iv2 tag c hiv2 htag
    unfold decryptString
    rw [toList_mk, base64_roundtrip _ hb2, hs.1, hs.2.1, hs.2.2]
    cases hd : G.dec (getKey sha256h m1) iv2 tag c with
    | none => rfl
    | some q => exact absurd (G.auth _ _ _ _ _ hd) (hgen q)

/-- Witness for encrypt_decrypt_roundtrip at the concrete toy AEAD, identity
hash, master secrets [1] and [2], a zero iv and plaintext [7]; a tampered tag
of sixteen 5s is also rejected. -/
theorem encrypt_decrypt_roundtrip_witness :
    decryptString toyAead (fun l => l) [1]
        (encryptString toyAead (fun l => l) [1] (List.replicate 12 0) [7]) =
      some [7] ∧
    decryptString toyAead (fun l => l) [2]
        (encryptString toyAead (fun l => l) [1] (List.replicate 12 0) [7]) =
      none ∧
    decryptString toyAead (fun l => l) [1]
        (String.mk (base64Encode
          (List.replicate 12 0 ++ List.replicate 16 5 ++ [9]))) = none := by
  have hmain := encrypt_decrypt_roundtrip toyAead (fun l => l) [1] [2]
    (List.replicate 12 0) [7] (by decide) (by decide) (by decide)
  refine ⟨hmain.1, hmain.2.1, ?_⟩
  refine hmain.2.2 (List.replicate 12 0) (List.replicate 16 5) [9]
    (by decide) (by decide) (by decide) ?_
  intro q heq
  have h2 : toyTag [1] = List.replicate 16 5 := congrArg Prod.snd heq
  exact absurd h2 (by decide)

end Imap
